import Mathlib

/-!
Verification development for the multi-agent department router.

The definitions below are a shallow embedding of the routing core of the
repository: the `DepartmentIntent` data model (`src/agents/types.ts`), the
orchestrator's intent deduplication (`OrchestratorAgent.resolveOrderedIntents`
in `src/agents/orchestrator.ts`), the result construction of
`DomainRagAgent.invoke` (`src/agents/domain_agent.ts`), and the routing state
machine `MultiAgentRouter.route` (`src/multi_agent_system.ts`).

External effectful collaborators (the LLM classifier call, the retriever and
the LLM generation call inside a domain agent) are modelled as abstract
functions that either return a structured value or fail with an error of an
abstract type `ε` (TypeScript exceptions are untyped, so the error type is a
parameter).  The `while` loop of `route` is embedded as a fuel-indexed
recursive function; `route` supplies fuel `queue.length + 5`, which is proved
sufficient (`routeLoop_exits`, `routeLoop_fuel_irrel`), so the fuel is an
artifact of totality only, not an extra exit channel.
-/

/-- `DepartmentIntent` from `src/agents/types.ts`:
`"hr" | "tech" | "finance" | "unknown"`. -/
inductive DepartmentIntent where
  | hr
  | tech
  | finance
  | unknown
  deriving DecidableEq, Fintype, Repr

/-- String form of an intent, as used when a department intent is
interpolated into a template literal in the source. -/
def DepartmentIntent.label : DepartmentIntent → String
  | .hr => "hr"
  | .tech => "tech"
  | .finance => "finance"
  | .unknown => "unknown"

/-- The `handoff` field of `DomainAgentResult` in `src/agents/domain_agent.ts`:
`{ intent: DepartmentIntent; reason: string; context?: string }`. -/
structure HandoffRequest where
  intent : DepartmentIntent
  reason : String
  context : Option String
  deriving DecidableEq, Repr

/-- `DomainAgentResult` from `src/agents/domain_agent.ts`. -/
structure DomainAgentResult where
  text : String
  sources : List String
  handoff : Option HandoffRequest
  deriving DecidableEq, Repr

/-- `AgentTurn` from `src/multi_agent_system.ts`:
`{ intentTried: DepartmentIntent; response: DomainAgentResult }`. -/
structure AgentTurn where
  intentTried : DepartmentIntent
  response : DomainAgentResult
  deriving DecidableEq, Repr

/-- `IntentQueueItem` from `src/multi_agent_system.ts`:
`{ intent: DepartmentIntent; note?: string }`. -/
structure IntentQueueItem where
  intent : DepartmentIntent
  note : Option String
  deriving DecidableEq, Repr

/-- `OrchestratorResult` from `src/agents/orchestrator.ts`: the classifier's
structured output `{ intents, confidence, reasoning }`.  The confidence is a
number in the source; it is carried through `route` unchanged and never
inspected, so it is embedded as a rational. -/
structure OrchestratorResult where
  intents : List DepartmentIntent
  confidence : Rat
  reasoning : String
  deriving DecidableEq, Repr

/-- `RouteResult` from `src/multi_agent_system.ts`. -/
structure RouteResult where
  classification : OrchestratorResult
  turns : List AgentTurn
  unresolvedIntents : List DepartmentIntent
  deriving DecidableEq, Repr

/-- A domain agent as the router sees it (`DomainRagAgent` in
`src/agents/domain_agent.ts`): a `name` (used when building history labels)
and an effectful `invoke(task, history)` that yields a `DomainAgentResult`
or throws.  The retriever/LLM pipeline inside `invoke` is abstracted as the
function itself; its pure result-construction step is modelled separately by
`DomainRagAgent.invokeResult` below. -/
structure DomainRagAgent (ε : Type) where
  name : String
  invoke : String → String → Except ε DomainAgentResult

/-- `MultiAgentRouter` from `src/multi_agent_system.ts`: holds the
orchestrator (modelled by its `classify` entry point) and the agent map
`Record<Exclude<DepartmentIntent, 'unknown'>, DomainRagAgent>`.  The map is
embedded as a total function into `Option`, matching the JavaScript object
lookup `this.agents[intent]` (which yields `undefined` for a missing key; the
source guards this with `if (!agent) continue`). -/
structure MultiAgentRouter (ε : Type) where
  classify : String → Except ε OrchestratorResult
  agents : DepartmentIntent → Option (DomainRagAgent ε)

variable {ε : Type}

/-- `OrchestratorAgent.resolveOrderedIntents` from
`src/agents/orchestrator.ts`: fold over the classifier's intents, normalize
each candidate, and push it onto `unique` unless already present. -/
def OrchestratorAgent.resolveOrderedIntents (result : OrchestratorResult) :
    List DepartmentIntent :=
  result.intents.foldl
    (fun unique candidate =>
      let normalized : DepartmentIntent :=
        match candidate with
        | .hr => .hr
        | .tech => .tech
        | .finance => .finance
        | .unknown => .unknown
      if normalized ∈ unique then unique else unique ++ [normalized])
    []

/-- The `follow_up` block of the zod schema in `src/agents/domain_agent.ts`:
`{ intent, reason, context_package? }`. -/
structure FollowUp where
  intent : DepartmentIntent
  reason : String
  contextPackage : Option String
  deriving DecidableEq, Repr

/-- The parsed LLM output of a domain agent (zod schema in
`src/agents/domain_agent.ts`): `{ answer, citations, follow_up? }`. -/
structure ParsedAgentOutput where
  answer : String
  citations : List String
  followUp : Option FollowUp
  deriving DecidableEq, Repr

/-- A retrieved document as `DomainRagAgent.invoke` consumes it:
`metadataSource` is `some s` exactly when `doc.metadata?.source` exists and
is a string. -/
structure SourceDoc where
  metadataSource : Option String
  pageContent : String
  deriving DecidableEq, Repr

/-- The result construction of `DomainRagAgent.invoke`
(`src/agents/domain_agent.ts`, the `return` statement): builds the
`DomainAgentResult` from the parsed LLM output and the retrieved documents.
The retrieval and LLM calls that produce `parsed` and `sourceDocs` are
abstracted as inputs. -/
def DomainRagAgent.invokeResult (parsed : ParsedAgentOutput)
    (sourceDocs : List SourceDoc) : DomainAgentResult :=
  { text := parsed.answer
    sources :=
      if parsed.citations.length > 0 then parsed.citations
      else sourceDocs.mapIdx fun idx doc =>
        match doc.metadataSource with
        | some s => s
        | none => "chunk-" ++ toString idx
    handoff :=
      match parsed.followUp with
      | some fu =>
        if fu.intent ≠ DepartmentIntent.unknown then
          some { intent := fu.intent, reason := fu.reason, context := fu.contextPackage }
        else none
      | none => none }

/-- The `history` string built in `MultiAgentRouter.route`: each prior turn
rendered as `"<label>:\n<text>"`, joined by blank lines, where the label is
`'Unknown intent'` for the `unknown` intent, else the agent's name, else the
intent string itself. -/
def buildHistory (agents : DepartmentIntent → Option (DomainRagAgent ε))
    (turns : List AgentTurn) : String :=
  String.intercalate "\n\n" (turns.map fun turn =>
    (if turn.intentTried = DepartmentIntent.unknown then "Unknown intent"
     else
       match agents turn.intentTried with
       | some a => a.name
       | none => turn.intentTried.label) ++ ":\n" ++ turn.response.text)

/-- The history argument actually passed to `agent.invoke`:
`history || 'No prior agent responses.'` (empty string is falsy). -/
def historyText (agents : DepartmentIntent → Option (DomainRagAgent ε))
    (turns : List AgentTurn) : String :=
  let h := buildHistory agents turns
  if h = "" then "No prior agent responses." else h

/-- The task directive built in `MultiAgentRouter.route`:
`note ? question + "\n\nFollow-up directive: " + note : question`
(a `note` that is the empty string is falsy in JavaScript, leaving the
question unchanged). -/
def taskDirective (question : String) (note : Option String) : String :=
  match note with
  | some n => if n = "" then question else question ++ "\n\nFollow-up directive: " ++ n
  | none => question

/-- The local loop state of one `route` call at loop exit: the transcript,
the remaining queue, and the visited set (embedded as the list of intents in
the order they were added; the source only queries membership). -/
structure LoopState where
  turns : List AgentTurn
  queue : List IntentQueueItem
  visited : List DepartmentIntent
  deriving Repr

/-- The `while (queue.length && turns.length < 5)` dispatch loop of
`MultiAgentRouter.route`, fuel-indexed for totality.  Each iteration pops the
queue head; skips it (without consuming a budget slot) when it is `unknown`,
already visited, or has no bound agent; otherwise invokes the agent with the
task directive and accumulated history, records the turn, marks the intent
visited, and enqueues an unvisited handoff target (note =
`handoff.context ?? handoff.reason`) at the tail.  An agent error propagates.
On fuel exhaustion the current state is returned, in the same shape as the
budget exit; `route` passes fuel that provably never exhausts. -/
def routeLoop (agents : DepartmentIntent → Option (DomainRagAgent ε))
    (question : String) :
    Nat → List IntentQueueItem → List DepartmentIntent → List AgentTurn →
    Except ε LoopState
  | _fuel, [], visited, turns =>
    Except.ok { turns := turns, queue := [], visited := visited }
  | 0, queue, visited, turns =>
    Except.ok { turns := turns, queue := queue, visited := visited }
  | fuel + 1, item :: rest, visited, turns =>
    if turns.length < 5 then
      if item.intent = DepartmentIntent.unknown ∨ item.intent ∈ visited then
        routeLoop agents question fuel rest visited turns
      else
        match agents item.intent with
        | none => routeLoop agents question fuel rest visited turns
        | some agent =>
          match agent.invoke (taskDirective question item.note) (historyText agents turns) with
          | Except.error e => Except.error e
          | Except.ok response =>
            let turns' := turns ++ [{ intentTried := item.intent, response := response }]
            let visited' := visited ++ [item.intent]
            let queue' :=
              match response.handoff with
              | some h =>
                if h.intent ∈ visited' then rest
                else rest ++ [{ intent := h.intent, note := some (h.context.getD h.reason) }]
              | none => rest
            routeLoop agents question fuel queue' visited' turns'
    else
      Except.ok { turns := turns, queue := item :: rest, visited := visited }

/-- `MultiAgentRouter.route` from `src/multi_agent_system.ts`: classify,
expand the ordered intents into the initial queue, run the dispatch loop,
then report the transcript and the unresolved (still queued, unvisited)
intents. -/
def MultiAgentRouter.route (r : MultiAgentRouter ε) (question : String) :
    Except ε RouteResult :=
  match r.classify question with
  | Except.error e => Except.error e
  | Except.ok classification =>
    let orderedIntents := OrchestratorAgent.resolveOrderedIntents classification
    let queue : List IntentQueueItem := orderedIntents.map fun intent =>
      { intent := intent, note := none }
    match routeLoop r.agents question (queue.length + 5) queue [] [] with
    | Except.error e => Except.error e
    | Except.ok out =>
      Except.ok
        { classification := classification
          turns := out.turns
          unresolvedIntents :=
            (out.queue.map (·.intent)).filter fun i => decide (i ∉ out.visited) }

/-- First-seen deduplication, written from the spec's words ("intents are
deduplicated while preserving first-seen order — if the same logical
department is emitted twice, only the first occurrence survives, at its
original position"), to be compared with the source's
`resolveOrderedIntents`. -/
def specFirstSeenDedup {α : Type} [DecidableEq α] : List α → List α
  | [] => []
  | x :: xs => x :: specFirstSeenDedup (xs.filter fun y => decide (y ≠ x))
termination_by l => l.length
decreasing_by
  simp only [List.length_cons]
  exact Nat.lt_succ_of_le (List.length_filter_le _ _)

/-- A deterministic test agent: echoes its task as the answer text and
always reports the fixed handoff `h` (or none).  Used to instantiate route
scenarios; the echoed text witnesses the exact task directive the router
passed to the agent. -/
def mkAgent (nm : String) (h : Option HandoffRequest) : DomainRagAgent String :=
  { name := nm
    invoke := fun task _history => Except.ok { text := task, sources := [], handoff := h } }

/-- A complete agent map (one agent per non-`unknown` department, as the
source's `agentMap`), with prescribed handoff behaviour per department. -/
def demoAgents (hrH techH finH : Option HandoffRequest) :
    DepartmentIntent → Option (DomainRagAgent String)
  | .hr => some (mkAgent "HR Knowledge Specialist" hrH)
  | .tech => some (mkAgent "Tech Support Specialist" techH)
  | .finance => some (mkAgent "Finance Policy Specialist" finH)
  | .unknown => none

/-- A classifier result with the given ordered intents. -/
def mkClassification (intents : List DepartmentIntent) : OrchestratorResult :=
  { intents := intents, confidence := 1, reasoning := "classifier rationale" }

/-- A router whose classifier deterministically returns `intents` and whose
agents have the prescribed handoff behaviour. -/
def demoRouter (intents : List DepartmentIntent)
    (hrH techH finH : Option HandoffRequest) : MultiAgentRouter String :=
  { classify := fun _q => Except.ok (mkClassification intents)
    agents := demoAgents hrH techH finH }

/-- If a list has no duplicates and all its members lie in a finite set,
its length is bounded by the set's cardinality. -/
theorem nodup_length_le_of_subset {α : Type} [DecidableEq α] (l : List α)
    (s : Finset α) (hn : l.Nodup) (hs : ∀ x ∈ l, x ∈ s) : l.length ≤ s.card := by
  have h1 : l.toFinset.card = l.length := List.toFinset_card_of_nodup hn
  have h2 : l.toFinset ⊆ s := by
    intro x hx
    exact hs x (List.mem_toFinset.mp hx)
  have h3 := Finset.card_le_card h2
  omega

/-- Dispatch-loop invariant: starting from a state where the visited list is
exactly the list of dispatched intents (no duplicates, no `unknown`, at most
5 turns), every state at normal loop exit satisfies the same properties. -/
theorem routeLoop_invariant (agents : DepartmentIntent → Option (DomainRagAgent ε))
    (question : String) :
    ∀ (fuel : Nat) (queue : List IntentQueueItem) (visited : List DepartmentIntent)
      (turns : List AgentTurn) (out : LoopState),
      visited = turns.map (·.intentTried) →
      (turns.map (·.intentTried)).Nodup →
      turns.length ≤ 5 →
      DepartmentIntent.unknown ∉ turns.map (·.intentTried) →
      routeLoop agents question fuel queue visited turns = Except.ok out →
      out.visited = out.turns.map (·.intentTried) ∧
      (out.turns.map (·.intentTried)).Nodup ∧
      out.turns.length ≤ 5 ∧
      DepartmentIntent.unknown ∉ out.turns.map (·.intentTried) := by
  intro fuel
  induction fuel with
  | zero =>
    intro queue visited turns out hv hnd hlen hunk h
    cases queue with
    | nil =>
      simp only [routeLoop] at h
      cases h
      exact ⟨hv, hnd, hlen, hunk⟩
    | cons item rest =>
      simp only [routeLoop] at h
      cases h
      exact ⟨hv, hnd, hlen, hunk⟩
  | succ fuel ih =>
    intro queue visited turns out hv hnd hlen hunk h
    cases queue with
    | nil =>
      simp only [routeLoop] at h
      cases h
      exact ⟨hv, hnd, hlen, hunk⟩
    | cons item rest =>
      simp only [routeLoop] at h
      by_cases h5 : turns.length < 5
      · rw [if_pos h5] at h
        by_cases hsk : item.intent = DepartmentIntent.unknown ∨ item.intent ∈ visited
        · rw [if_pos hsk] at h
          exact ih rest visited turns out hv hnd hlen hunk h
        · rw [if_neg hsk] at h
          push_neg at hsk
          obtain ⟨hne, hnv⟩ := hsk
          cases hag : agents item.intent with
          | none =>
            rw [hag] at h
            exact ih rest visited turns out hv hnd hlen hunk h
          | some agent =>
            rw [hag] at h
            dsimp only at h
            cases hinv : agent.invoke (taskDirective question item.note) (historyText agents turns) with
            | error e =>
              rw [hinv] at h
              cases h
            | ok response =>
              rw [hinv] at h
              dsimp only at h
              refine ih _ _ _ out ?_ ?_ ?_ ?_ h
              · simp [hv]
              · simp only [List.map_append, List.map_cons, List.map_nil]
                rw [List.nodup_append]
                refine ⟨hnd, List.nodup_singleton _, ?_⟩
                intro a ha hb
                simp only [List.mem_singleton] at hb
                subst hb
                rw [hv] at hnv
                exact hnv ha
              · simp only [List.length_append, List.length_cons, List.length_nil]
                omega
              · simp only [List.map_append, List.map_cons, List.map_nil, List.mem_append,
                  List.mem_singleton]
                rintro (hmem | hmem)
                · exact hunk hmem
                · exact hne hmem.symm
      · rw [if_neg h5] at h
        cases h
        exact ⟨hv, hnd, hlen, hunk⟩

/-- With fuel at least `queue.length + (5 - turns.length)`, the dispatch
loop never runs out of fuel: a normal exit happens only with an empty queue
or with exactly 5 completed turns.  This is the termination argument for the
source's `while (queue.length && turns.length < 5)` loop — each iteration
removes one queue item and appends at most one, and appends only when the
transcript grows, which can happen fewer than 5 times. -/
theorem routeLoop_exits (agents : DepartmentIntent → Option (DomainRagAgent ε))
    (question : String) :
    ∀ (fuel : Nat) (queue : List IntentQueueItem) (visited : List DepartmentIntent)
      (turns : List AgentTurn) (out : LoopState),
      queue.length + (5 - turns.length) ≤ fuel →
      turns.length ≤ 5 →
      routeLoop agents question fuel queue visited turns = Except.ok out →
      out.queue = [] ∨ out.turns.length = 5 := by
  intro fuel
  induction fuel with
  | zero =>
    intro queue visited turns out hfuel hlen h
    cases queue with
    | nil =>
      simp only [routeLoop] at h
      cases h
      exact Or.inl rfl
    | cons item rest =>
      simp only [List.length_cons] at hfuel
      omega
  | succ fuel ih =>
    intro queue visited turns out hfuel hlen h
    cases queue with
    | nil =>
      simp only [routeLoop] at h
      cases h
      exact Or.inl rfl
    | cons item rest =>
      simp only [List.length_cons] at hfuel
      simp only [routeLoop] at h
      by_cases h5 : turns.length < 5
      · rw [if_pos h5] at h
        by_cases hsk : item.intent = DepartmentIntent.unknown ∨ item.intent ∈ visited
        · rw [if_pos hsk] at h
          exact ih rest visited turns out (by omega) hlen h
        · rw [if_neg hsk] at h
          cases hag : agents item.intent with
          | none =>
            rw [hag] at h
            exact ih rest visited turns out (by omega) hlen h
          | some agent =>
            rw [hag] at h
            dsimp only at h
            cases hinv : agent.invoke (taskDirective question item.note) (historyText agents turns) with
            | error e =>
              rw [hinv] at h
              cases h
            | ok response =>
              rw [hinv] at h
              dsimp only at h
              refine ih _ _ _ out ?_ ?_ h
              · have hq : (match response.handoff with
                    | some hf =>
                      if hf.intent ∈ visited ++ [item.intent] then rest
                      else rest ++ [({ intent := hf.intent, note := some (hf.context.getD hf.reason) } : IntentQueueItem)]
                    | none => rest).length ≤ rest.length + 1 := by
                  cases response.handoff with
                  | none => simp
                  | some hf =>
                    dsimp only
                    by_cases hin : hf.intent ∈ visited ++ [item.intent]
                    · rw [if_pos hin]
                      omega
                    · rw [if_neg hin]
                      simp
                simp only [List.length_append, List.length_cons, List.length_nil]
                omega
              · simp only [List.length_append, List.length_cons, List.length_nil]
                omega
      · rw [if_neg h5] at h
        cases h
        right
        dsimp only
        omega

/-- The history string never consults the agent bound to `unknown`: the
label for an `unknown` turn is fixed before any lookup happens. -/
theorem historyText_agents_unknown_irrel
    (agents : DepartmentIntent → Option (DomainRagAgent ε))
    (g : Option (DomainRagAgent ε)) (turns : List AgentTurn) :
    historyText (fun i => if i = DepartmentIntent.unknown then g else agents i) turns
      = historyText agents turns := by
  have hb : buildHistory (fun i => if i = DepartmentIntent.unknown then g else agents i) turns
      = buildHistory agents turns := by
    unfold buildHistory
    congr 1
    apply List.map_congr_left
    intro t _
    by_cases h : t.intentTried = DepartmentIntent.unknown
    · simp [h]
    · simp [h]
  unfold historyText
  rw [hb]

/-- The dispatch loop never consults (in particular never invokes) the agent
bound to `unknown`: its outcome is unchanged if that map entry is replaced by
anything at all.  Together with the absence of `unknown` from the transcript
this expresses that no agent invocation is ever performed for `unknown`. -/
theorem routeLoop_agents_unknown_irrel
    (agents : DepartmentIntent → Option (DomainRagAgent ε))
    (g : Option (DomainRagAgent ε)) (question : String) :
    ∀ (fuel : Nat) (queue : List IntentQueueItem) (visited : List DepartmentIntent)
      (turns : List AgentTurn),
      routeLoop (fun i => if i = DepartmentIntent.unknown then g else agents i)
          question fuel queue visited turns
        = routeLoop agents question fuel queue visited turns := by
  intro fuel
  induction fuel with
  | zero =>
    intro queue visited turns
    cases queue with
    | nil => simp only [routeLoop]
    | cons item rest => simp only [routeLoop]
  | succ fuel ih =>
    intro queue visited turns
    cases queue with
    | nil => simp only [routeLoop]
    | cons item rest =>
      simp only [routeLoop]
      by_cases h5 : turns.length < 5
      · simp only [if_pos h5]
        by_cases hsk : item.intent = DepartmentIntent.unknown ∨ item.intent ∈ visited
        · simp only [if_pos hsk]
          exact ih rest visited turns
        · simp only [if_neg hsk]
          push_neg at hsk
          obtain ⟨hne, -⟩ := hsk
          rw [if_neg hne]
          cases hag : agents item.intent with
          | none =>
            exact ih rest visited turns
          | some agent =>
            dsimp only
            rw [historyText_agents_unknown_irrel agents g turns]
            cases hinv : agent.invoke (taskDirective question item.note) (historyText agents turns) with
            | error e => rfl
            | ok response =>
              dsimp only
              exact ih _ _ _
      · simp only [if_neg h5]

/-- Fuel irrelevance: with sufficient fuel (at least the loop measure
`queue.length + (5 - turns.length)`), the loop's outcome does not depend on
the exact fuel value.  Hence `route`'s fuel choice `queue.length + 5` gives
the true semantics of the unbounded `while` loop. -/
theorem routeLoop_fuel_irrel (agents : DepartmentIntent → Option (DomainRagAgent ε))
    (question : String) :
    ∀ (fuel fuel' : Nat) (queue : List IntentQueueItem)
      (visited : List DepartmentIntent) (turns : List AgentTurn),
      queue.length + (5 - turns.length) ≤ fuel →
      fuel ≤ fuel' →
      routeLoop agents question fuel' queue visited turns
        = routeLoop agents question fuel queue visited turns := by
  intro fuel
  induction fuel with
  | zero =>
    intro fuel' queue visited turns hfuel _
    cases queue with
    | nil => cases fuel' <;> simp only [routeLoop]
    | cons item rest => simp only [List.length_cons] at hfuel; omega
  | succ fuel ih =>
    intro fuel' queue visited turns hfuel hle
    cases queue with
    | nil => cases fuel' <;> simp only [routeLoop]
    | cons item rest =>
      obtain ⟨fuel'', rfl⟩ : ∃ k, fuel' = k + 1 := by
        cases fuel' with
        | zero => omega
        | succ k => exact ⟨k, rfl⟩
      simp only [List.length_cons] at hfuel
      simp only [routeLoop]
      by_cases h5 : turns.length < 5
      · simp only [if_pos h5]
        by_cases hsk : item.intent = DepartmentIntent.unknown ∨ item.intent ∈ visited
        · simp only [if_pos hsk]
          exact ih fuel'' rest visited turns (by omega) (by omega)
        · simp only [if_neg hsk]
          cases hag : agents item.intent with
          | none =>
            exact ih fuel'' rest visited turns (by omega) (by omega)
          | some agent =>
            dsimp only
            cases hinv : agent.invoke (taskDirective question item.note) (historyText agents turns) with
            | error e => rfl
            | ok response =>
              dsimp only
              refine ih fuel'' _ _ _ ?_ (by omega)
              have hq : (match response.handoff with
                  | some hf =>
                    if hf.intent ∈ visited ++ [item.intent] then rest
                    else rest ++ [({ intent := hf.intent, note := some (hf.context.getD hf.reason) } : IntentQueueItem)]
                  | none => rest).length ≤ rest.length + 1 := by
                cases response.handoff with
                | none => simp
                | some hf =>
                  dsimp only
                  by_cases hin : hf.intent ∈ visited ++ [item.intent]
                  · rw [if_pos hin]
                    omega
                  · rw [if_neg hin]
                    simp
              simp only [List.length_append, List.length_cons, List.length_nil]
              omega
      · simp only [if_neg h5]

/-- Membership in the first-seen deduplication is membership in the input. -/
theorem mem_specFirstSeenDedup {α : Type} [DecidableEq α] :
    ∀ (l : List α) (y : α), y ∈ specFirstSeenDedup l → y ∈ l := by
  intro l
  induction l using specFirstSeenDedup.induct with
  | case1 => intro y hy; simp [specFirstSeenDedup] at hy
  | case2 x xs ih =>
    intro y hy
    rw [specFirstSeenDedup] at hy
    rcases List.mem_cons.mp hy with h | h
    · simp [h]
    · have := ih y h
      rcases List.mem_filter.mp this with ⟨hmem, -⟩
      exact List.mem_cons_of_mem _ hmem

/-- First-seen deduplication produces a duplicate-free list. -/
theorem specFirstSeenDedup_nodup {α : Type} [DecidableEq α] :
    ∀ l : List α, (specFirstSeenDedup l).Nodup := by
  intro l
  induction l using specFirstSeenDedup.induct with
  | case1 => simp [specFirstSeenDedup]
  | case2 x xs ih =>
    rw [specFirstSeenDedup]
    refine List.nodup_cons.mpr ⟨?_, ih⟩
    intro hx
    have := mem_specFirstSeenDedup _ _ hx
    rcases List.mem_filter.mp this with ⟨-, hne⟩
    simp at hne

/-- The normalization step inside `resolveOrderedIntents` is the identity:
each enum constructor is mapped to itself. -/
theorem resolveOrderedIntents_eq_foldl (result : OrchestratorResult) :
    OrchestratorAgent.resolveOrderedIntents result
      = result.intents.foldl
          (fun unique candidate =>
            if candidate ∈ unique then unique else unique ++ [candidate]) [] := by
  unfold OrchestratorAgent.resolveOrderedIntents
  congr 1
  funext unique candidate
  cases candidate <;> rfl

/-- The insert-if-absent fold computes the accumulator followed by the
first-seen deduplication of the not-yet-seen input elements. -/
theorem foldl_insertIfAbsent_eq {α : Type} [DecidableEq α] (l : List α) :
    ∀ acc : List α,
      l.foldl (fun unique candidate =>
          if candidate ∈ unique then unique else unique ++ [candidate]) acc
        = acc ++ specFirstSeenDedup (l.filter fun y => decide (y ∉ acc)) := by
  induction l with
  | nil =>
    intro acc
    simp [specFirstSeenDedup]
  | cons x xs ih =>
    intro acc
    by_cases hx : x ∈ acc
    · simp only [List.foldl_cons, if_pos hx]
      rw [ih acc]
      have : (List.filter (fun y => decide (y ∉ acc)) (x :: xs))
          = List.filter (fun y => decide (y ∉ acc)) xs := by
        simp [List.filter_cons, hx]
      rw [this]
    · simp only [List.foldl_cons, if_neg hx]
      rw [ih (acc ++ [x])]
      have hfilter : (xs.filter fun y => decide (y ∉ acc ++ [x]))
          = (xs.filter fun y => decide (y ∉ acc)).filter fun y => decide (y ≠ x) := by
        rw [List.filter_filter]
        congr 1
        funext y
        by_cases h1 : y = x <;> by_cases h2 : y ∈ acc <;> simp [h1, h2]
      have hcons : (List.filter (fun y => decide (y ∉ acc)) (x :: xs))
          = x :: List.filter (fun y => decide (y ∉ acc)) xs := by
        simp [List.filter_cons, hx]
      rw [hcons, specFirstSeenDedup, ← hfilter]
      simp

/-- Inversion of a successful `route` call: it decomposes into a successful
classification and a successful dispatch loop over the initial queue built
from the resolved ordered intents, with the stated fuel. -/
theorem route_ok_elim (r : MultiAgentRouter ε) (question : String)
    (res : RouteResult) (h : r.route question = Except.ok res) :
    ∃ (classification : OrchestratorResult) (out : LoopState),
      r.classify question = Except.ok classification ∧
      routeLoop r.agents question
          (((OrchestratorAgent.resolveOrderedIntents classification).map
            (fun intent => ({ intent := intent, note := none } : IntentQueueItem))).length + 5)
          ((OrchestratorAgent.resolveOrderedIntents classification).map
            (fun intent => ({ intent := intent, note := none } : IntentQueueItem)))
          [] []
        = Except.ok out ∧
      res.classification = classification ∧
      res.turns = out.turns ∧
      res.unresolvedIntents
        = (out.queue.map (·.intent)).filter fun i => decide (i ∉ out.visited) := by
  unfold MultiAgentRouter.route at h
  cases hc : r.classify question with
  | error e =>
    rw [hc] at h
    cases h
  | ok classification =>
    rw [hc] at h
    dsimp only at h
    cases hl : routeLoop r.agents question
        (((OrchestratorAgent.resolveOrderedIntents classification).map
          (fun intent => ({ intent := intent, note := none } : IntentQueueItem))).length + 5)
        ((OrchestratorAgent.resolveOrderedIntents classification).map
          (fun intent => ({ intent := intent, note := none } : IntentQueueItem)))
        [] [] with
    | error e =>
      rw [hl] at h
      cases h
    | ok out =>
      rw [hl] at h
      dsimp only at h
      cases h
      exact ⟨classification, out, rfl, hl, rfl, rfl, rfl⟩

/-- Claim C1: for every call to `MultiAgentRouter.route` that completes
normally (the dispatch loop starts from an empty visited set and empty
transcript, as `route` initializes them), the visited set at loop exit has
size at most 5 (the turn budget), the returned turns sequence has length at
most 5, and the visited set equals the set of `DepartmentIntent` values
appearing as `turns[i].intentTried`. -/
theorem claim_C1 (agents : DepartmentIntent → Option (DomainRagAgent ε))
    (question : String) (fuel : Nat) (queue : List IntentQueueItem)
    (out : LoopState)
    (h : routeLoop agents question fuel queue [] [] = Except.ok out) :
    out.visited.toFinset.card ≤ 5 ∧
    out.turns.length ≤ 5 ∧
    out.visited.toFinset = (out.turns.map (·.intentTried)).toFinset := by
  obtain ⟨hv, hnd, hlen, hunk⟩ :=
    routeLoop_invariant agents question fuel queue [] [] out rfl (by simp)
      (by simp) (by simp) h
  refine ⟨?_, hlen, by rw [hv]⟩
  rw [hv, List.toFinset_card_of_nodup hnd, List.length_map]
  exact hlen


/-- An echo turn with no handoff: the recorded response text is the task the
agent received. -/
def echoTurn (intent : DepartmentIntent) (task : String)
    (h : Option HandoffRequest) : AgentTurn :=
  { intentTried := intent, response := { text := task, sources := [], handoff := h } }

/-- Concrete loop-exit state for the C1 witness run. -/
def c1Out : LoopState :=
  { turns := [echoTurn DepartmentIntent.hr "q" none, echoTurn DepartmentIntent.tech "q" none]
    queue := []
    visited := [DepartmentIntent.hr, DepartmentIntent.tech] }

/-- Witness for C1 at a concrete dispatch-loop run. -/
theorem claim_C1_witness :
    routeLoop (demoAgents none none none) "q" 7
        [{ intent := DepartmentIntent.hr, note := none },
         { intent := DepartmentIntent.tech, note := none }] [] []
      = Except.ok c1Out ∧
    (c1Out.visited.toFinset.card ≤ 5 ∧
     c1Out.turns.length ≤ 5 ∧
     c1Out.visited.toFinset = (c1Out.turns.map (·.intentTried)).toFinset) :=
  ⟨rfl,
   claim_C1 (demoAgents none none none) "q" 7
     [{ intent := DepartmentIntent.hr, note := none },
      { intent := DepartmentIntent.tech, note := none }] c1Out rfl⟩

/-- Claim C2: for every call to `MultiAgentRouter.route`, no
`DepartmentIntent` value appears more than once among the returned turns'
`intentTried` fields, whatever the classifier and the agents (including
their handoffs) do. -/
theorem claim_C2 (r : MultiAgentRouter ε) (question : String) (res : RouteResult)
    (h : r.route question = Except.ok res) :
    (res.turns.map (·.intentTried)).Nodup := by
  obtain ⟨classification, out, -, hl, -, ht, -⟩ := route_ok_elim r question res h
  obtain ⟨-, hnd, -, -⟩ :=
    routeLoop_invariant r.agents question _ _ [] [] out rfl (by simp)
      (by simp) (by simp) hl
  rw [ht]
  exact hnd

/-- Router for the C2 witness: the classifier emits `hr` twice, and the hr
agent hands off to `tech`, which is also queued by the classifier. -/
def c2Router : MultiAgentRouter String :=
  demoRouter [DepartmentIntent.hr, DepartmentIntent.hr, DepartmentIntent.tech]
    (some { intent := DepartmentIntent.tech, reason := "again", context := none })
    none none

/-- Concrete route result for the C2 witness run. -/
def c2Res : RouteResult :=
  { classification := mkClassification
      [DepartmentIntent.hr, DepartmentIntent.hr, DepartmentIntent.tech]
    turns :=
      [echoTurn DepartmentIntent.hr "q"
        (some { intent := DepartmentIntent.tech, reason := "again", context := none }),
       echoTurn DepartmentIntent.tech "q" none]
    unresolvedIntents := [] }

/-- Witness for C2: duplicate requests for the same department (classifier
and handoff) still yield a duplicate-free transcript. -/
theorem claim_C2_witness :
    c2Router.route "q" = Except.ok c2Res ∧
    (c2Res.turns.map (·.intentTried)).Nodup :=
  ⟨rfl, claim_C2 c2Router "q" c2Res rfl⟩

/-- Claim C3: the intent `unknown` never appears as a returned turn's
`intentTried`, and no agent invocation is ever performed for it: the
outcome of `route` is unchanged no matter what (if anything) the agent map
binds to `unknown`, so the `unknown` entry is never consulted or invoked,
regardless of whether `unknown` occurs in the classifier's intents or as a
handoff target. -/
theorem claim_C3 (r : MultiAgentRouter ε) (question : String) :
    (∀ res, r.route question = Except.ok res →
       DepartmentIntent.unknown ∉ res.turns.map (·.intentTried)) ∧
    (∀ g, MultiAgentRouter.route
        { classify := r.classify
          agents := fun i => if i = DepartmentIntent.unknown then g else r.agents i }
        question
      = r.route question) := by
  constructor
  · intro res h
    obtain ⟨classification, out, -, hl, -, ht, -⟩ := route_ok_elim r question res h
    obtain ⟨-, -, -, hunk⟩ :=
      routeLoop_invariant r.agents question _ _ [] [] out rfl (by simp)
        (by simp) (by simp) hl
    rw [ht]
    exact hunk
  · intro g
    unfold MultiAgentRouter.route
    dsimp only
    cases hc : r.classify question with
    | error e => rfl
    | ok classification =>
      dsimp only
      rw [routeLoop_agents_unknown_irrel r.agents g question]

/-- Router for the C3 witness: the classifier reports `unknown` first, then
`hr`; the hr agent hands off to `unknown`. -/
def c3Router : MultiAgentRouter String :=
  demoRouter [DepartmentIntent.unknown, DepartmentIntent.hr]
    (some { intent := DepartmentIntent.unknown, reason := "nothing fits", context := none })
    none none

/-- Concrete route result for the C3 witness run. -/
def c3Res : RouteResult :=
  { classification := mkClassification [DepartmentIntent.unknown, DepartmentIntent.hr]
    turns :=
      [echoTurn DepartmentIntent.hr "q"
        (some { intent := DepartmentIntent.unknown, reason := "nothing fits", context := none })]
    unresolvedIntents := [] }

/-- Witness for C3: `unknown` is classified first and also requested as a
handoff target, yet never dispatched, and rebinding the `unknown` map entry
changes nothing. -/
theorem claim_C3_witness :
    c3Router.route "q" = Except.ok c3Res ∧
    DepartmentIntent.unknown ∉ c3Res.turns.map (·.intentTried) ∧
    MultiAgentRouter.route
        { classify := c3Router.classify
          agents := fun i => if i = DepartmentIntent.unknown then
              some (mkAgent "ghost" none) else c3Router.agents i }
        "q"
      = c3Router.route "q" :=
  ⟨rfl, (claim_C3 c3Router "q").1 c3Res rfl,
   (claim_C3 c3Router "q").2 (some (mkAgent "ghost" none))⟩

/-- Claim C4: for every `ClassificationResult`,
`OrchestratorAgent.resolveOrderedIntents` returns a sequence with no
duplicate `DepartmentIntent` values that preserves the first-seen order of
the input intents: it equals the first-seen deduplication of the input, so
if the same department occurs twice only its first occurrence survives, at
its original position. -/
theorem claim_C4 (result : OrchestratorResult) :
    (OrchestratorAgent.resolveOrderedIntents result).Nodup ∧
    OrchestratorAgent.resolveOrderedIntents result
      = specFirstSeenDedup result.intents := by
  have heq : OrchestratorAgent.resolveOrderedIntents result
      = specFirstSeenDedup result.intents := by
    rw [resolveOrderedIntents_eq_foldl, foldl_insertIfAbsent_eq]
    simp
  exact ⟨heq ▸ specFirstSeenDedup_nodup result.intents, heq⟩

/-- Claim C5: with classifier output `["hr","tech"]` and an hr agent that
hands off to `finance` with context "needs budget sign-off" (tech and
finance agents hand off nothing), the returned turns are exactly
[hr, tech, finance] in that order — FIFO: the already-queued tech is served
before the appended finance item — and the finance agent is invoked with the
original question followed by a follow-up directive section carrying
"needs budget sign-off" (visible as the echoed response text). -/
theorem claim_C5 :
    (demoRouter [DepartmentIntent.hr, DepartmentIntent.tech]
        (some { intent := DepartmentIntent.finance, reason := "budget approval"
                context := some "needs budget sign-off" })
        none none).route "May I buy a laptop?"
      = Except.ok
        { classification := mkClassification [DepartmentIntent.hr, DepartmentIntent.tech]
          turns :=
            [echoTurn DepartmentIntent.hr "May I buy a laptop?"
              (some { intent := DepartmentIntent.finance, reason := "budget approval"
                      context := some "needs budget sign-off" }),
             echoTurn DepartmentIntent.tech "May I buy a laptop?" none,
             echoTurn DepartmentIntent.finance
               "May I buy a laptop?\n\nFollow-up directive: needs budget sign-off" none]
          unresolvedIntents := [] } := rfl

/-- Claim C6: if the agent for intent `A` always hands off to `B` and the
agent for `B` always hands off back to `A`, any normally completing `route`
call engages `A` and `B` together in at most 2 turns (each at most once) —
the A-B cycle cannot loop. -/
theorem claim_C6 (r : MultiAgentRouter ε) (question : String)
    (A B : DepartmentIntent) (a b : DomainRagAgent ε)
    (hA : r.agents A = some a) (hB : r.agents B = some b)
    (haB : ∀ task history result, a.invoke task history = Except.ok result →
       ∃ hf, result.handoff = some hf ∧ hf.intent = B)
    (hbA : ∀ task history result, b.invoke task history = Except.ok result →
       ∃ hf, result.handoff = some hf ∧ hf.intent = A)
    (res : RouteResult) (h : r.route question = Except.ok res) :
    res.turns.countP (fun t => decide (t.intentTried = A ∨ t.intentTried = B)) ≤ 2 := by
  obtain ⟨classification, out, -, hl, -, ht, -⟩ := route_ok_elim r question res h
  obtain ⟨-, hnd, -, -⟩ :=
    routeLoop_invariant r.agents question _ _ [] [] out rfl (by simp)
      (by simp) (by simp) hl
  rw [ht]
  have hcount : out.turns.countP (fun t => decide (t.intentTried = A ∨ t.intentTried = B))
      = ((out.turns.map (·.intentTried)).filter (fun i => decide (i = A ∨ i = B))).length := by
    rw [← List.countP_eq_length_filter, List.countP_map]
    rfl
  rw [hcount]
  have hfn : ((out.turns.map (·.intentTried)).filter (fun i => decide (i = A ∨ i = B))).Nodup :=
    List.Nodup.filter _ hnd
  have hsub : ∀ x ∈ (out.turns.map (·.intentTried)).filter (fun i => decide (i = A ∨ i = B)),
      x ∈ ({A, B} : Finset DepartmentIntent) := by
    intro x hx
    have := (List.mem_filter.mp hx).2
    have hor := of_decide_eq_true this
    rcases hor with h1 | h1 <;> simp [h1]
  have hle := nodup_length_le_of_subset _ _ hfn hsub
  have hcard : ({A, B} : Finset DepartmentIntent).card ≤ 2 := by
    refine le_trans (Finset.card_insert_le A {B}) ?_
    simp
  omega

/-- Router for the C6 witness: an hr-tech handoff cycle (hr always hands to
tech, tech always hands back to hr). -/
def c6Router : MultiAgentRouter String :=
  demoRouter [DepartmentIntent.hr]
    (some { intent := DepartmentIntent.tech, reason := "t", context := none })
    (some { intent := DepartmentIntent.hr, reason := "h", context := none })
    none

/-- Concrete route result for the C6 witness run: the cycle stops after the
hr and tech turns. -/
def c6Res : RouteResult :=
  { classification := mkClassification [DepartmentIntent.hr]
    turns :=
      [echoTurn DepartmentIntent.hr "q"
        (some { intent := DepartmentIntent.tech, reason := "t", context := none }),
       echoTurn DepartmentIntent.tech "q\n\nFollow-up directive: t"
        (some { intent := DepartmentIntent.hr, reason := "h", context := none })]
    unresolvedIntents := [] }

/-- Witness for C6 at the concrete hr-tech ping-pong cycle. -/
theorem claim_C6_witness :
    c6Router.route "q" = Except.ok c6Res ∧
    c6Res.turns.countP
        (fun t => decide (t.intentTried = DepartmentIntent.hr ∨
          t.intentTried = DepartmentIntent.tech)) ≤ 2 := by
  refine ⟨rfl, ?_⟩
  refine claim_C6 c6Router "q" DepartmentIntent.hr DepartmentIntent.tech
    (mkAgent "HR Knowledge Specialist"
      (some { intent := DepartmentIntent.tech, reason := "t", context := none }))
    (mkAgent "Tech Support Specialist"
      (some { intent := DepartmentIntent.hr, reason := "h", context := none }))
    rfl rfl ?_ ?_ c6Res rfl
  · intro task history result hres
    cases hres
    exact ⟨_, rfl, rfl⟩
  · intro task history result hres
    cases hres
    exact ⟨_, rfl, rfl⟩

/-- Claim C7: a classifier failure propagates out of `route` unchanged (no
partial `RouteResult`), and an agent failure during the dispatch loop makes
the loop — and hence `route` — return exactly that error with no partial
result and no retry at the router layer. -/
theorem claim_C7 (r : MultiAgentRouter ε) (question : String) :
    (∀ e : ε, r.classify question = Except.error e →
       r.route question = Except.error e) ∧
    (∀ (e : ε) (fuel : Nat) (item : IntentQueueItem) (rest : List IntentQueueItem)
       (visited : List DepartmentIntent) (turns : List AgentTurn)
       (agent : DomainRagAgent ε),
       turns.length < 5 →
       ¬(item.intent = DepartmentIntent.unknown ∨ item.intent ∈ visited) →
       r.agents item.intent = some agent →
       agent.invoke (taskDirective question item.note) (historyText r.agents turns)
         = Except.error e →
       routeLoop r.agents question (fuel + 1) (item :: rest) visited turns
         = Except.error e) := by
  constructor
  · intro e he
    unfold MultiAgentRouter.route
    rw [he]
  · intro e fuel item rest visited turns agent h5 hsk hag hinv
    simp only [routeLoop]
    rw [if_pos h5, if_neg hsk, hag]
    dsimp only
    rw [hinv]

/-- Router for the C7 witness whose classifier always fails. -/
def c7FailingClassifyRouter : MultiAgentRouter String :=
  { classify := fun _q => Except.error "ClassificationError"
    agents := demoAgents none none none }

/-- Agent for the C7 witness whose generation always fails. -/
def c7FailingAgent : DomainRagAgent String :=
  { name := "Failing HR Agent"
    invoke := fun _task _history => Except.error "GenerationError" }

/-- Router for the C7 witness with a failing hr agent. -/
def c7FailingAgentRouter : MultiAgentRouter String :=
  { classify := fun _q => Except.ok (mkClassification [DepartmentIntent.hr])
    agents := fun i =>
      match i with
      | DepartmentIntent.hr => some c7FailingAgent
      | _ => none }

/-- Witness for C7: a failing classification and a failing generation each
propagate their error. -/
theorem claim_C7_witness :
    c7FailingClassifyRouter.route "q" = Except.error "ClassificationError" ∧
    routeLoop c7FailingAgentRouter.agents "q" 6
        [{ intent := DepartmentIntent.hr, note := none }] [] []
      = Except.error "GenerationError" := by
  constructor
  · exact (claim_C7 c7FailingClassifyRouter "q").1 "ClassificationError" rfl
  · exact (claim_C7 c7FailingAgentRouter "q").2 "GenerationError" 5
      { intent := DepartmentIntent.hr, note := none } [] [] [] c7FailingAgent
      (by decide) (by decide) rfl rfl

/-- Claim C8: the result built by `DomainRagAgent.invoke` never carries a
handoff naming `unknown`: a parsed follow_up with intent `unknown` yields no
handoff at all, while a follow_up naming a department yields exactly that
one intent with the given reason and optional context package. -/
theorem claim_C8 (parsed : ParsedAgentOutput) (sourceDocs : List SourceDoc) :
    (∀ hf, (DomainRagAgent.invokeResult parsed sourceDocs).handoff = some hf →
       hf.intent ≠ DepartmentIntent.unknown) ∧
    (∀ fu, parsed.followUp = some fu → fu.intent = DepartmentIntent.unknown →
       (DomainRagAgent.invokeResult parsed sourceDocs).handoff = none) ∧
    (∀ fu, parsed.followUp = some fu → fu.intent ≠ DepartmentIntent.unknown →
       (DomainRagAgent.invokeResult parsed sourceDocs).handoff
         = some { intent := fu.intent, reason := fu.reason, context := fu.contextPackage }) := by
  unfold DomainRagAgent.invokeResult
  dsimp only
  cases hfu : parsed.followUp with
  | none =>
    refine ⟨?_, ?_, ?_⟩
    · intro hf h
      cases h
    · intro fu h
      cases h
    · intro fu h
      cases h
  | some fu0 =>
    dsimp only
    refine ⟨?_, ?_, ?_⟩
    · intro hf h
      by_cases hne : fu0.intent ≠ DepartmentIntent.unknown
      · rw [if_pos hne] at h
        cases h
        exact hne
      · rw [if_neg hne] at h
        cases h
    · intro fu h hu
      cases h
      rw [if_neg (by simpa using hu)]
    · intro fu h hne
      cases h
      rw [if_pos hne]

/-- Parsed output for the C8 witness whose follow_up names `unknown`. -/
def c8UnknownParsed : ParsedAgentOutput :=
  { answer := "I do not know."
    citations := []
    followUp := some { intent := DepartmentIntent.unknown
                       reason := "nothing fits", contextPackage := none } }

/-- Parsed output for the C8 witness whose follow_up names `finance`. -/
def c8FinanceParsed : ParsedAgentOutput :=
  { answer := "Ask finance."
    citations := ["KB-1"]
    followUp := some { intent := DepartmentIntent.finance
                       reason := "budget", contextPackage := some "brief" } }

/-- Witness for C8 at concrete parsed outputs. -/
theorem claim_C8_witness :
    (DomainRagAgent.invokeResult c8UnknownParsed []).handoff = none ∧
    (DomainRagAgent.invokeResult c8FinanceParsed []).handoff
      = some { intent := DepartmentIntent.finance, reason := "budget"
               context := some "brief" } :=
  ⟨(claim_C8 c8UnknownParsed []).2.1 _ rfl rfl,
   (claim_C8 c8FinanceParsed []).2.2 _ rfl (by decide)⟩

/-- Counterexample for C9: the scenario the claim quantifies over cannot
exist for this program — `DepartmentIntent` has only 4 values, so there is
no chain of 6 distinct departments to exceed the turn budget with. -/
theorem claim_C9_counterexample :
    ¬ ∃ chain : List DepartmentIntent, chain.Nodup ∧ chain.length = 6 := by
  rintro ⟨chain, hnd, hlen⟩
  have hle := nodup_length_le_of_subset chain Finset.univ hnd
    (fun x _ => Finset.mem_univ x)
  have hcard : (Finset.univ : Finset DepartmentIntent).card = 4 := by decide
  omega

/-- Router for the C9 amended claim: the longest possible handoff chain —
all three departments in a cycle (hr hands to tech, tech to finance, finance
back to hr). -/
def c9Router : MultiAgentRouter String :=
  demoRouter [DepartmentIntent.hr]
    (some { intent := DepartmentIntent.tech, reason := "t", context := none })
    (some { intent := DepartmentIntent.finance, reason := "f", context := none })
    (some { intent := DepartmentIntent.hr, reason := "h", context := none })

/-- Claim C9 (amended): no route call can chain 6 distinct departments
(see the counterexample); the longest realizable chain engages all 3
non-`unknown` departments, records exactly 3 turns — the 5-turn budget is
never reached — and leaves `unresolvedIntents` empty. -/
theorem claim_C9 :
    c9Router.route "q"
      = Except.ok
        { classification := mkClassification [DepartmentIntent.hr]
          turns :=
            [echoTurn DepartmentIntent.hr "q"
              (some { intent := DepartmentIntent.tech, reason := "t", context := none }),
             echoTurn DepartmentIntent.tech "q\n\nFollow-up directive: t"
              (some { intent := DepartmentIntent.finance, reason := "f", context := none }),
             echoTurn DepartmentIntent.finance "q\n\nFollow-up directive: f"
              (some { intent := DepartmentIntent.hr, reason := "h", context := none })]
          unresolvedIntents := [] } := rfl

/-- Claim C10: every normally completing `route` call returns at most 3
turns and an empty `unresolvedIntents`: only three non-`unknown` intents
exist and each is dispatched at most once, so the 5-turn budget never
triggers and the loop exits only on queue exhaustion. -/
theorem claim_C10 (r : MultiAgentRouter ε) (question : String) (res : RouteResult)
    (h : r.route question = Except.ok res) :
    res.turns.length ≤ 3 ∧ res.unresolvedIntents = [] := by
  obtain ⟨classification, out, -, hl, -, ht, hu⟩ := route_ok_elim r question res h
  obtain ⟨-, hnd, hlen, hunk⟩ :=
    routeLoop_invariant r.agents question _ _ [] [] out rfl (by simp)
      (by simp) (by simp) hl
  have hlen3 : out.turns.length ≤ 3 := by
    have hsub : ∀ x ∈ out.turns.map (·.intentTried),
        x ∈ ({DepartmentIntent.hr, DepartmentIntent.tech, DepartmentIntent.finance} :
          Finset DepartmentIntent) := by
      intro x hx
      have hxne : x ≠ DepartmentIntent.unknown := fun he => hunk (he ▸ hx)
      cases x with
      | hr => simp
      | tech => simp
      | finance => simp
      | unknown => exact absurd rfl hxne
    have hle := nodup_length_le_of_subset _ _ hnd hsub
    have hcard : ({DepartmentIntent.hr, DepartmentIntent.tech, DepartmentIntent.finance} :
        Finset DepartmentIntent).card = 3 := by decide
    rw [List.length_map] at hle
    omega
  refine ⟨ht ▸ hlen3, ?_⟩
  have hexit := routeLoop_exits r.agents question _ _ [] [] out (by simp) (by simp) hl
  rcases hexit with hq | h5
  · rw [hu, hq]
    rfl
  · omega

/-- Router for the C10 witness: finance first, then a handoff to hr. -/
def c10Router : MultiAgentRouter String :=
  demoRouter [DepartmentIntent.finance] none none
    (some { intent := DepartmentIntent.hr, reason := "to hr", context := none })

/-- Concrete route result for the C10 witness run. -/
def c10Res : RouteResult :=
  { classification := mkClassification [DepartmentIntent.finance]
    turns :=
      [echoTurn DepartmentIntent.finance "q"
        (some { intent := DepartmentIntent.hr, reason := "to hr", context := none }),
       echoTurn DepartmentIntent.hr "q\n\nFollow-up directive: to hr" none]
    unresolvedIntents := [] }

/-- Witness for C10 at a concrete route run. -/
theorem claim_C10_witness :
    c10Router.route "q" = Except.ok c10Res ∧
    (c10Res.turns.length ≤ 3 ∧ c10Res.unresolvedIntents = []) :=
  ⟨rfl, claim_C10 c10Router "q" c10Res rfl⟩
